import Mathlib

/-!
Verification of the outbound request-dispatch middleware stack of the
catfleet client against its specification.

The embedding below is a shallow model of `src/client/limit.rs`
(`RateLimitWithBurst`), `src/client/base_url.rs` (`overwrite_base_url`),
`src/client/middleware/extra_headers.rs` (`ExtraHeaders`),
`src/client/inner.rs` (`InnerClient::send_request`) and the composition
root `WrappedClient::new` in `src/client/mod.rs`.

Modelling conventions:
- `tokio::time::Instant` and `Duration` are nanosecond counts as `Nat`;
  `Instant::now()` becomes an explicit `now : Nat` argument.
- `panic!` is modelled as `Option.none`; a dispatched call is `some`.
- The inner service of the limiter (`InnerClient`) is always ready
  (its `poll_ready` returns `Poll::Ready(Ok(()))` unconditionally), so the
  limiter's readiness report is determined by the limiter's own state.
-/

namespace Catfleet

/-- A rate of requests per time period (`Rate` in `limit.rs`), with the
period in nanoseconds. `Rate::new` asserts `num > 0` and `per > 0`; those
assertions appear as hypotheses of the theorems below. -/
structure Rate where
  num : Nat
  per : Nat
deriving Repr, DecidableEq

/-- The limiter's mode (`enum State` in `limit.rs`). -/
inductive LimitState where
  | Limited
  | Ready
deriving Repr, DecidableEq

/-- The mutable state of `RateLimitWithBurst<T>` from `limit.rs`, minus the
inner service (modelled as always ready). `sleep` is the deadline the
sleep timer is currently armed for. -/
structure RateLimitWithBurst where
  rateDefault : Rate
  rateBurst : Rate
  state : LimitState
  untilDefault : Nat
  untilBurst : Nat
  rem : Nat
  sleep : Nat
deriving Repr, DecidableEq

/-- `RateLimitWithBurst::new`: starts `Ready` with both refill deadlines at
`now`, `rem = rate_default.num() + rate_burst.num()`, and the sleep timer
set to `now` (already elapsed). -/
def RateLimitWithBurst.new (rateDefault rateBurst : Rate) (now : Nat) : RateLimitWithBurst :=
  { rateDefault := rateDefault
    rateBurst := rateBurst
    state := .Ready
    untilDefault := now
    untilBurst := now
    rem := rateDefault.num + rateBurst.num
    sleep := now }

/-- The default-bucket refill check, duplicated verbatim in `poll_ready`
and `call`: if `now >= until_default`, advance the deadline by the period
and add `rate_default.num()` to `rem`, capped at the combined ceiling
`rate_default.num() + rate_burst.num()`. -/
def refillDefault (s : RateLimitWithBurst) (now : Nat) : RateLimitWithBurst :=
  if s.untilDefault ≤ now then
    { s with
      untilDefault := now + s.rateDefault.per
      rem := min (s.rem + s.rateDefault.num) (s.rateDefault.num + s.rateBurst.num) }
  else s

/-- The burst-bucket refill check, duplicated verbatim in `poll_ready` and
`call`: same as `refillDefault` but for the burst rate, with the same
single combined ceiling. -/
def refillBurst (s : RateLimitWithBurst) (now : Nat) : RateLimitWithBurst :=
  if s.untilBurst ≤ now then
    { s with
      untilBurst := now + s.rateBurst.per
      rem := min (s.rem + s.rateBurst.num) (s.rateDefault.num + s.rateBurst.num) }
  else s

/-- `poll_ready` from `limit.rs`. Returns the readiness report (the inner
service is always ready) together with the updated limiter state. In
`Ready` mode it defers to the inner service. In `Limited` mode, if the
sleep timer has not elapsed (`now < sleep`) it reports not-ready without
mutation; otherwise it applies both refill checks and returns to `Ready`. -/
def pollReady (s : RateLimitWithBurst) (now : Nat) : Bool × RateLimitWithBurst :=
  match s.state with
  | .Ready => (true, s)
  | .Limited =>
    if now < s.sleep then
      (false, s)
    else
      let s1 := refillBurst (refillDefault s now) now
      (true, { s1 with state := .Ready })

/-- `call` from `limit.rs`. In `Limited` mode the code panics
("service not ready; poll_ready must be called first"), modelled as
`none`. In `Ready` mode it re-applies both refill checks, then: if
`rem > 1` it decrements `rem` and stays `Ready`; otherwise it arms the
sleep timer for the earlier of the two refill deadlines and goes
`Limited` (without decrementing). Either way the request is dispatched to
the inner service (`some`). -/
def call (s : RateLimitWithBurst) (now : Nat) : Option RateLimitWithBurst :=
  match s.state with
  | .Limited => none
  | .Ready =>
    let s1 := refillBurst (refillDefault s now) now
    if 1 < s1.rem then
      some { s1 with rem := s1.rem - 1, state := .Ready }
    else
      some { s1 with
        state := .Limited
        sleep := if s1.untilDefault ≤ s1.untilBurst then s1.untilDefault else s1.untilBurst }

/-- `n` rounds of the readiness-gated call protocol, all at the same
instant `now`: each round is a `pollReady` that must report ready,
followed by a `call` that must dispatch. `none` when some round's
readiness check reports not-ready (or its call panics). -/
def runRounds : Nat → Nat → RateLimitWithBurst → Option RateLimitWithBurst
  | 0, _, s => some s
  | n + 1, now, s =>
    match pollReady s now with
    | (false, _) => none
    | (true, s1) =>
      match call s1 now with
      | none => none
      | some s2 => runRounds n now s2

/-- String concatenation on the underlying character lists, the model of
Rust `format!` concatenation of two string slices. -/
def strConcat (a b : String) : String := ⟨a.data ++ b.data⟩

/-- Rust `str::starts_with(pat)` on the character level. -/
def strStartsWith (s pat : String) : Bool := pat.data.isPrefixOf s.data

/-- Rust `str::trim_end_matches('/')`: removes every trailing slash. -/
def trimEndSlashes (s : String) : String :=
  ⟨(s.data.reverse.dropWhile (fun c => c == '/')).reverse⟩

/-- `PathAndQuery::path()`: the part of a path-and-query string before the
query separator. -/
def pathOf (pq : String) : String := ⟨pq.data.takeWhile (fun c => c != '?')⟩

/-- A `hyper::Uri` as the code reads it: optional scheme, optional
authority, optional path-and-query (kept as one string, as
`PathAndQuery::as_str()` exposes it). -/
structure Uri where
  scheme : Option String
  authority : Option String
  pathAndQuery : Option String
deriving Repr, DecidableEq

/-- `overwrite_base_url` from `base_url.rs`. Scheme and authority come
from the input when present, else from the base. If the base has a
path-and-query, its path with trailing slashes stripped is the prefix:
an input path-and-query not starting with the prefix gets it prepended,
one already starting with it is used verbatim, and a missing input
path-and-query falls back to the base's. If the base has none, the
input's is used verbatim. The final `Uri::builder().build().expect(..)`
is total here because components are kept as plain strings. -/
def overwriteBaseUrl (baseUrl inputUrl : Uri) : Uri :=
  let scheme := match inputUrl.scheme with
    | some sc => some sc
    | none => baseUrl.scheme
  let authority := match inputUrl.authority with
    | some a => some a
    | none => baseUrl.authority
  let pathAndQuery := match baseUrl.pathAndQuery with
    | some bpq =>
      match inputUrl.pathAndQuery with
      | some ipq =>
        let basePath := trimEndSlashes (pathOf bpq)
        if !(strStartsWith ipq basePath) then
          some (strConcat basePath ipq)
        else
          some ipq
      | none => some bpq
    | none => inputUrl.pathAndQuery
  { scheme := scheme, authority := authority, pathAndQuery := pathAndQuery }

/-- A request as the middleware reads it: target and headers; the body is
opaque passthrough and the other parts are untouched by these layers. A
header map is a multimap, kept as the ordered list of its entries. -/
structure HttpRequest where
  uri : Uri
  headers : List (String × String)
deriving Repr, DecidableEq

/-- `HeaderMap::append` (used by `Extend<(HeaderName, T)>`): adds the
entry, keeping every existing entry, duplicates included. -/
def headerAppend (m : List (String × String)) (kv : String × String) :
    List (String × String) :=
  m ++ [kv]

/-- `HeaderMap::extend` over an iterator of `(HeaderName, HeaderValue)`
pairs, which appends each pair in order (the `Extend<(HeaderName, T)>`
impl of the http crate loops `self.append(k, v)`). -/
def headerExtend (m extra : List (String × String)) : List (String × String) :=
  extra.foldl headerAppend m

/-- `ExtraHeaders::call` from `extra_headers.rs`:
`req.headers_mut().extend(self.headers.iter().cloned())`, then the request
is forwarded to the inner service; shown here as the request the inner
service receives. -/
def extraHeadersCall (cfg : List (String × String)) (req : HttpRequest) : HttpRequest :=
  { req with headers := headerExtend req.headers cfg }

/-- `HeaderMap::insert`: replaces any existing entries for the name with
the single new entry. -/
def headerInsert (m : List (String × String)) (name value : String) :
    List (String × String) :=
  (m.filter (fun kv => kv.1 != name)) ++ [(name, value)]

/-- `AddAuthorization::call` (tower_http, external dependency used by
`WrappedClient::new`): inserts the bearer authorization header, then
forwards to the inner service; shown as the request the inner service
receives. -/
def addAuthorizationCall (token : String) (req : HttpRequest) : HttpRequest :=
  { req with headers := headerInsert req.headers "authorization" (strConcat "Bearer " token) }

/-- The kinds of layer that appear in this repository's middleware and in
the spec's description of the composition root. -/
inductive LayerKind where
  | baseUrl
  | extraHeaders
  | addAuthorization
  | rateLimit
  | transport
deriving Repr, DecidableEq

/-- The composed stack built by `WrappedClient::new` in `client/mod.rs`,
listed outermost-first. `ServiceBuilder::new().layer(rate_limit).layer(auth)
.service(client)` wraps the first-added layer outermost, matching the
declared type `RateLimitWithBurst<AddAuthorization<InnerClient<_>>>`. -/
def wrappedClientLayers : List LayerKind :=
  [LayerKind.rateLimit, LayerKind.addAuthorization, LayerKind.transport]

/-- Modelled from the spec: the composition the spec describes, wrapped
innermost-first as transport, rate limiter, credential/header injection,
URL rewriting — listed here outermost-first. -/
def claimedStackLayers : List LayerKind :=
  [LayerKind.baseUrl, LayerKind.addAuthorization, LayerKind.rateLimit, LayerKind.transport]

/-- One call through the composed `WrappedClient` stack: the outermost
rate limiter's `call` (panic modelled as `none`), whose inner service is
`AddAuthorization`, whose inner service is the transport (`InnerClient`).
The returned request is the one the transport receives. -/
def wrappedClientCall (token : String) (s : RateLimitWithBurst) (now : Nat)
    (req : HttpRequest) : Option (RateLimitWithBurst × HttpRequest) :=
  match call s now with
  | none => none
  | some s1 => some (s1, addAuthorizationCall token req)

/-- Outcome of `self.sender.ready().await` in `InnerClient::send_request`:
ok, an error with `is_closed()`, or any other error (carried as a code). -/
inductive ReadyOutcome where
  | ok
  | errClosed
  | errOther (e : Nat)
deriving Repr, DecidableEq

/-- Outcome of `self.sender.send_request(req.clone()).await`: a response
(carried as a code), an error with `is_canceled()`, an error with
`is_closed()`, or any other error. -/
inductive DispatchOutcome where
  | ok (resp : Nat)
  | errCanceled
  | errClosed
  | errOther (e : Nat)
deriving Repr, DecidableEq

/-- Outcome of `self.connector.connect().await`: a fresh send handle
(carried as a code) or a connection error (DNS, TCP, TLS, handshake). -/
inductive ConnectOutcome where
  | ok (h : Nat)
  | err (e : Nat)
deriving Repr, DecidableEq

/-- The caller-visible result of `send_request`. -/
inductive SendResult where
  | success (resp : Nat)
  | failure (e : Nat)
deriving Repr, DecidableEq

/-- The `loop` of `InnerClient::send_request` from `inner.rs`, run against
scripts of transport outcomes. Each iteration consumes one ready outcome;
on ready-closed it consumes a connect outcome (a failed connect is
returned through `?`), on ready-ok it consumes a dispatch outcome:
success and other errors return, canceled retries against the same
handle, closed reconnects. `handle` is the current send handle, `nd` and
`nc` count dispatch and connect attempts, `fuel` bounds the unbounded
Rust loop; `none` means the scripts or fuel ran out. -/
def sendRequestLoop (fuel : Nat) (handle : Nat) (readys : List ReadyOutcome)
    (dispatches : List DispatchOutcome) (connects : List ConnectOutcome)
    (nd nc : Nat) : Option (SendResult × Nat × Nat × Nat) :=
  match fuel with
  | 0 => none
  | fuel + 1 =>
    match readys with
    | [] => none
    | r :: readys =>
      match r with
      | .errOther e => some (.failure e, nd, nc, handle)
      | .errClosed =>
        match connects with
        | [] => none
        | c :: connects =>
          match c with
          | .err e => some (.failure e, nd, nc + 1, handle)
          | .ok h1 => sendRequestLoop fuel h1 readys dispatches connects nd (nc + 1)
      | .ok =>
        match dispatches with
        | [] => none
        | d :: dispatches =>
          match d with
          | .ok resp => some (.success resp, nd + 1, nc, handle)
          | .errOther e => some (.failure e, nd + 1, nc, handle)
          | .errCanceled => sendRequestLoop fuel handle readys dispatches connects (nd + 1) nc
          | .errClosed =>
            match connects with
            | [] => none
            | c :: connects =>
              match c with
              | .err e => some (.failure e, nd + 1, nc + 1, handle)
              | .ok h1 => sendRequestLoop fuel h1 readys dispatches connects (nd + 1) (nc + 1)

/-- `InnerClient::send_request` on a given current handle and outcome
scripts: result, number of dispatch attempts, number of reconnection
attempts, and the handle in use at the end. -/
def sendRequest (handle : Nat) (readys : List ReadyOutcome)
    (dispatches : List DispatchOutcome) (connects : List ConnectOutcome)
    (fuel : Nat) : Option (SendResult × Nat × Nat × Nat) :=
  sendRequestLoop fuel handle readys dispatches connects 0 0

/-! Theorems. -/

theorem runRounds_add (m n now : Nat) (s : RateLimitWithBurst) :
    runRounds (m + n) now s = (runRounds m now s).bind (fun s1 => runRounds n now s1) := by
  induction m generalizing s with
  | zero => simp [runRounds]
  | succ m ih =>
    rw [Nat.succ_add]
    simp only [runRounds]
    rcases hp : pollReady s now with ⟨b1, s1⟩
    cases b1
    · simp
    · rcases hc : call s1 now with _ | s2
      · simp [hc]
      · simp [hc, ih]

theorem runRounds_drain (rd rb : Rate) (ud ub sl : Nat) (hud : 0 < ud) (hub : 0 < ub) :
    ∀ k, runRounds k 0 ⟨rd, rb, .Ready, ud, ub, k + 1, sl⟩ =
      some ⟨rd, rb, .Ready, ud, ub, 1, sl⟩ := by
  intro k
  induction k with
  | zero => rfl
  | succ k ih =>
    have h1 : ¬ (ud ≤ 0) := by omega
    have h2 : ¬ (ub ≤ 0) := by omega
    have h3 : 1 < k + 1 + 1 := by omega
    simp only [runRounds, pollReady, call, refillDefault, refillBurst, h1, h2, if_false,
      if_neg, h3, if_pos, Nat.add_sub_cancel]
    exact ih

theorem call_fresh (d pd b pb : Nat) (hd : 0 < d) (hb : 0 < b) :
    call (RateLimitWithBurst.new ⟨d, pd⟩ ⟨b, pb⟩ 0) 0 =
      some ⟨⟨d, pd⟩, ⟨b, pb⟩, .Ready, pd, pb, d + b - 1, 0⟩ := by
  have hm1 : min (d + b + d) (d + b) = d + b := by omega
  have hm2 : min (d + b + b) (d + b) = d + b := by omega
  have hgt : 1 < d + b := by omega
  simp [call, RateLimitWithBurst.new, refillDefault, refillBurst, hm1, hm2, hgt]

/-- C1: for every positive `(defaultCount, defaultPeriod, burstCount,
burstPeriod)`, a freshly constructed limiter admits exactly
`defaultCount + burstCount` immediate calls (each preceded by a readiness
check reporting ready, all at the same instant) and then its readiness
check reports not-ready, so a `defaultCount + burstCount + 1`-th round
fails. -/
theorem limiter_admits_default_plus_burst (d pd b pb : Nat)
    (hd : 0 < d) (hpd : 0 < pd) (hb : 0 < b) (hpb : 0 < pb) :
    ∃ sEnd, runRounds (d + b) 0 (RateLimitWithBurst.new ⟨d, pd⟩ ⟨b, pb⟩ 0) = some sEnd ∧
      (pollReady sEnd 0).1 = false ∧
      runRounds (d + b + 1) 0 (RateLimitWithBurst.new ⟨d, pd⟩ ⟨b, pb⟩ 0) = none := by
  have hstep1 : runRounds 1 0 (RateLimitWithBurst.new ⟨d, pd⟩ ⟨b, pb⟩ 0) =
      some ⟨⟨d, pd⟩, ⟨b, pb⟩, .Ready, pd, pb, d + b - 1, 0⟩ := by
    have hc := call_fresh d pd b pb hd hb
    simp only [RateLimitWithBurst.new] at hc
    simp only [runRounds, pollReady, RateLimitWithBurst.new]
    rw [hc]
  have hdrain : runRounds (d + b - 2) 0
      (⟨⟨d, pd⟩, ⟨b, pb⟩, .Ready, pd, pb, d + b - 1, 0⟩ : RateLimitWithBurst) =
      some ⟨⟨d, pd⟩, ⟨b, pb⟩, .Ready, pd, pb, 1, 0⟩ := by
    have hrem : d + b - 1 = (d + b - 2) + 1 := by omega
    rw [hrem]
    exact runRounds_drain ⟨d, pd⟩ ⟨b, pb⟩ pd pb 0 hpd hpb (d + b - 2)
  have hlast : runRounds 1 0
      (⟨⟨d, pd⟩, ⟨b, pb⟩, .Ready, pd, pb, 1, 0⟩ : RateLimitWithBurst) =
      some ⟨⟨d, pd⟩, ⟨b, pb⟩, .Limited, pd, pb, 1, if pd ≤ pb then pd else pb⟩ := by
    have h1 : ¬ (pd ≤ 0) := by omega
    have h2 : ¬ (pb ≤ 0) := by omega
    simp [runRounds, pollReady, call, refillDefault, refillBurst, h1, h2]
  have hall : runRounds (d + b) 0 (RateLimitWithBurst.new ⟨d, pd⟩ ⟨b, pb⟩ 0) =
      some ⟨⟨d, pd⟩, ⟨b, pb⟩, .Limited, pd, pb, 1, if pd ≤ pb then pd else pb⟩ := by
    have hsplit : d + b = 1 + ((d + b - 2) + 1) := by omega
    rw [hsplit, runRounds_add, hstep1]
    simp only [Option.some_bind]
    rw [runRounds_add, hdrain]
    simp only [Option.some_bind]
    exact hlast
  refine ⟨_, hall, ?_, ?_⟩
  · have hpos : 0 < (if pd ≤ pb then pd else pb) := by
      split <;> omega
    simp [pollReady, hpos]
  · rw [runRounds_add, hall]
    simp only [Option.some_bind]
    have hpos : 0 < (if pd ≤ pb then pd else pb) := by
      split <;> omega
    simp [runRounds, pollReady, hpos]

/-- C1 witness: the spec's own example rates, 1 per 100 and 2 per 400; the
fresh limiter admits exactly three immediate calls. -/
theorem limiter_admits_default_plus_burst_witness :
    ∃ sEnd, runRounds (1 + 2) 0 (RateLimitWithBurst.new ⟨1, 100⟩ ⟨2, 400⟩ 0) = some sEnd ∧
      (pollReady sEnd 0).1 = false ∧
      runRounds (1 + 2 + 1) 0 (RateLimitWithBurst.new ⟨1, 100⟩ ⟨2, 400⟩ 0) = none :=
  limiter_admits_default_plus_burst 1 100 2 400 (by decide) (by decide) (by decide) (by decide)

/-- The limiter states reachable from construction with rates
`(d, pd)` and `(b, pb)` (all positive, as `Rate::new` asserts) through any
interleaving of readiness checks and contract-respecting calls, at
arbitrary instants. -/
inductive Reachable (d pd b pb : Nat) : RateLimitWithBurst → Prop where
  | init (hd : 0 < d) (hpd : 0 < pd) (hb : 0 < b) (hpb : 0 < pb) (now : Nat) :
      Reachable d pd b pb (RateLimitWithBurst.new ⟨d, pd⟩ ⟨b, pb⟩ now)
  | poll {s : RateLimitWithBurst} (now : Nat) :
      Reachable d pd b pb s → Reachable d pd b pb (pollReady s now).2
  | dispatched {s s1 : RateLimitWithBurst} (now : Nat) :
      Reachable d pd b pb s → call s now = some s1 → Reachable d pd b pb s1

theorem refill2_invariant (s : RateLimitWithBurst) (now d pd b pb : Nat)
    (h1 : s.rateDefault = ⟨d, pd⟩) (h2 : s.rateBurst = ⟨b, pb⟩)
    (hlo : 1 ≤ s.rem) (hhi : s.rem ≤ d + b) (hdb : 0 < d + b) :
    (refillBurst (refillDefault s now) now).rateDefault = ⟨d, pd⟩ ∧
    (refillBurst (refillDefault s now) now).rateBurst = ⟨b, pb⟩ ∧
    1 ≤ (refillBurst (refillDefault s now) now).rem ∧
    (refillBurst (refillDefault s now) now).rem ≤ d + b ∧
    (refillBurst (refillDefault s now) now).state = s.state := by
  unfold refillDefault refillBurst
  rcases s with ⟨rd, rb, st, ud, ub, r, sl⟩
  cases h1
  cases h2
  dsimp only at hlo hhi ⊢
  split <;> split <;> dsimp only <;> refine ⟨rfl, rfl, ?_, ?_, rfl⟩ <;> omega

theorem reachable_invariant (d pd b pb : Nat) (s : RateLimitWithBurst)
    (h : Reachable d pd b pb s) :
    s.rateDefault = ⟨d, pd⟩ ∧ s.rateBurst = ⟨b, pb⟩ ∧
    1 ≤ s.rem ∧ s.rem ≤ d + b := by
  induction h with
  | init hd hpd hb hpb now =>
    refine ⟨rfl, rfl, by simp [RateLimitWithBurst.new]; omega, by simp [RateLimitWithBurst.new]⟩
  | poll now h ih =>
    rename_i s
    obtain ⟨h1, h2, hlo, hhi⟩ := ih
    have hdb : 0 < d + b := by omega
    obtain ⟨g1, g2, g3, g4, -⟩ := refill2_invariant s now d pd b pb h1 h2 hlo hhi hdb
    rcases hst : s.state with _ | _ <;> simp only [pollReady, hst]
    · split
      · exact ⟨h1, h2, hlo, hhi⟩
      · exact ⟨g1, g2, g3, g4⟩
    · exact ⟨h1, h2, hlo, hhi⟩
  | dispatched now h hc ih =>
    rename_i s s1
    obtain ⟨h1, h2, hlo, hhi⟩ := ih
    have hdb : 0 < d + b := by omega
    obtain ⟨g1, g2, g3, g4, -⟩ := refill2_invariant s now d pd b pb h1 h2 hlo hhi hdb
    rcases hst : s.state with _ | _ <;> simp only [call, hst] at hc
    · exact absurd hc (by simp)
    · split at hc <;>
        rename_i hgt <;> simp only [Option.some.injEq] at hc <;> subst hc
      · refine ⟨g1, g2, ?_, ?_⟩
        · show 1 ≤ (refillBurst (refillDefault s now) now).rem - 1
          omega
        · show (refillBurst (refillDefault s now) now).rem - 1 ≤ d + b
          omega
      · exact ⟨g1, g2, g3, g4⟩

/-- C3: every reachable limiter state satisfies
`0 ≤ remaining ≤ defaultRate.count + burstRate.count`: construction
establishes it and every readiness-check refill and every call refill
preserves it, each refill addition being capped at the single combined
ceiling. -/
theorem remaining_bounded_by_combined_ceiling (d pd b pb : Nat)
    (s : RateLimitWithBurst) (h : Reachable d pd b pb s) :
    0 ≤ s.rem ∧ s.rem ≤ d + b := by
  obtain ⟨-, -, -, hhi⟩ := reachable_invariant d pd b pb s h
  exact ⟨Nat.zero_le _, hhi⟩

/-- C3 witness: the invariant at a concrete reachable state, one
poll-and-call round after construction with rates 1 per 100 and 2 per
400. -/
theorem remaining_bounded_by_combined_ceiling_witness :
    0 ≤ (⟨⟨1, 100⟩, ⟨2, 400⟩, .Ready, 100, 400, 2, 0⟩ : RateLimitWithBurst).rem ∧
      (⟨⟨1, 100⟩, ⟨2, 400⟩, .Ready, 100, 400, 2, 0⟩ : RateLimitWithBurst).rem ≤ 1 + 2 :=
  remaining_bounded_by_combined_ceiling 1 100 2 400 _
    (Reachable.dispatched 0
      (Reachable.poll 0 (Reachable.init (by decide) (by decide) (by decide) (by decide) 0))
      (by decide))

/-- C9: the remaining token count of a reachable limiter state never
drops below 1: the call taken when at most one token remains goes
`Limited` without decrementing, so the last token is never consumed. -/
theorem remaining_at_least_one (d pd b pb : Nat)
    (s : RateLimitWithBurst) (h : Reachable d pd b pb s) : 1 ≤ s.rem := by
  obtain ⟨-, -, hlo, -⟩ := reachable_invariant d pd b pb s h
  exact hlo

/-- C9 witness: the lower bound at the freshly constructed limiter with
rates 1 per 100 and 2 per 400. -/
theorem remaining_at_least_one_witness :
    1 ≤ (RateLimitWithBurst.new ⟨1, 100⟩ ⟨2, 400⟩ 0).rem :=
  remaining_at_least_one 1 100 2 400 _
    (Reachable.init (by decide) (by decide) (by decide) (by decide) 0)

/-- Modelled from the spec: the call behaviour as the spec words it —
after re-applying both refill checks, decrement `remaining` by 1
unconditionally; if `remaining > 1` after the decrement stay `Ready`,
otherwise arm the wake timer for the earlier refill deadline and go
`Limited`. Stated for comparison against `call`, which is translated from
the code. -/
def callClaimed (s : RateLimitWithBurst) (now : Nat) : RateLimitWithBurst :=
  let s1 := refillBurst (refillDefault s now) now
  let s2 := { s1 with rem := s1.rem - 1 }
  if 1 < s2.rem then
    { s2 with state := .Ready }
  else
    { s2 with
      state := .Limited
      sleep := if s2.untilDefault ≤ s2.untilBurst then s2.untilDefault else s2.untilBurst }

/-- C2 counterexample: at the reachable state with 1 token remaining (rates
1 per 5 and 1 per 7, both refills still pending at instant 1), the code's
`call` keeps `remaining = 1` and the description's decrement-first rule
would leave 0; at 2 tokens remaining the code stays `Ready` while the
description's post-decrement test `remaining > 1` would go `Limited`. -/
theorem call_decrement_order_counterexample :
    call (⟨⟨1, 5⟩, ⟨1, 7⟩, .Ready, 5, 7, 1, 0⟩ : RateLimitWithBurst) 1 ≠
      some (callClaimed (⟨⟨1, 5⟩, ⟨1, 7⟩, .Ready, 5, 7, 1, 0⟩ : RateLimitWithBurst) 1) ∧
    (call (⟨⟨1, 5⟩, ⟨1, 7⟩, .Ready, 5, 7, 1, 0⟩ : RateLimitWithBurst) 1).map
      RateLimitWithBurst.rem = some 1 ∧
    (callClaimed (⟨⟨1, 5⟩, ⟨1, 7⟩, .Ready, 5, 7, 1, 0⟩ : RateLimitWithBurst) 1).rem = 0 ∧
    (call (⟨⟨1, 5⟩, ⟨1, 7⟩, .Ready, 5, 7, 2, 0⟩ : RateLimitWithBurst) 1).map
      RateLimitWithBurst.state = some .Ready ∧
    (callClaimed (⟨⟨1, 5⟩, ⟨1, 7⟩, .Ready, 5, 7, 2, 0⟩ : RateLimitWithBurst) 1).state =
      .Limited := by
  decide

/-- C2 amended: in `call` from `Ready` mode, after re-applying the two
refill checks, if more than one token remains the count is decremented by
1 and the limiter stays `Ready`; otherwise the count is left unchanged
(the last token is not consumed), the wake timer is armed for
`min(nextDefaultRefill, nextBurstRefill)`, and the limiter goes
`Limited`; in either case the call is dispatched to the inner layer. -/
theorem call_decrements_only_above_one (s : RateLimitWithBurst) (now : Nat)
    (h : s.state = .Ready) :
    ∃ s2, call s now = some s2 ∧
      (1 < (refillBurst (refillDefault s now) now).rem →
        s2.rem = (refillBurst (refillDefault s now) now).rem - 1 ∧
        s2.state = .Ready) ∧
      (¬ 1 < (refillBurst (refillDefault s now) now).rem →
        s2.rem = (refillBurst (refillDefault s now) now).rem ∧
        s2.state = .Limited ∧
        s2.sleep = min (refillBurst (refillDefault s now) now).untilDefault
          (refillBurst (refillDefault s now) now).untilBurst) := by
  simp only [call, h]
  split <;> rename_i hgt
  · exact ⟨_, rfl, fun _ => ⟨rfl, rfl⟩, fun hn => absurd hgt hn⟩
  · refine ⟨_, rfl, fun hy => absurd hy hgt, fun _ => ⟨rfl, rfl, ?_⟩⟩
    rw [Nat.min_def]

/-- C2 amended witness: the amended behaviour at the concrete state with
2 tokens remaining used in the counterexample. -/
theorem call_decrements_only_above_one_witness :
    ∃ s2, call (⟨⟨1, 5⟩, ⟨1, 7⟩, .Ready, 5, 7, 2, 0⟩ : RateLimitWithBurst) 1 = some s2 ∧
      (1 < (refillBurst (refillDefault
          (⟨⟨1, 5⟩, ⟨1, 7⟩, .Ready, 5, 7, 2, 0⟩ : RateLimitWithBurst) 1) 1).rem →
        s2.rem = (refillBurst (refillDefault
          (⟨⟨1, 5⟩, ⟨1, 7⟩, .Ready, 5, 7, 2, 0⟩ : RateLimitWithBurst) 1) 1).rem - 1 ∧
        s2.state = .Ready) ∧
      (¬ 1 < (refillBurst (refillDefault
          (⟨⟨1, 5⟩, ⟨1, 7⟩, .Ready, 5, 7, 2, 0⟩ : RateLimitWithBurst) 1) 1).rem →
        s2.rem = (refillBurst (refillDefault
          (⟨⟨1, 5⟩, ⟨1, 7⟩, .Ready, 5, 7, 2, 0⟩ : RateLimitWithBurst) 1) 1).rem ∧
        s2.state = .Limited ∧
        s2.sleep = min (refillBurst (refillDefault
          (⟨⟨1, 5⟩, ⟨1, 7⟩, .Ready, 5, 7, 2, 0⟩ : RateLimitWithBurst) 1) 1).untilDefault
          (refillBurst (refillDefault
          (⟨⟨1, 5⟩, ⟨1, 7⟩, .Ready, 5, 7, 2, 0⟩ : RateLimitWithBurst) 1) 1).untilBurst) :=
  call_decrements_only_above_one ⟨⟨1, 5⟩, ⟨1, 7⟩, .Ready, 5, 7, 2, 0⟩ 1 rfl

/-- C8 counterexample: a freshly constructed limiter is in `Ready` mode,
so invoking `call` on it without any preceding readiness observation
silently succeeds and dispatches to the inner layer, instead of failing
loudly. -/
theorem call_without_poll_counterexample :
    (call (RateLimitWithBurst.new ⟨1, 100⟩ ⟨2, 400⟩ 0) 0).isSome = true := by
  decide

/-- C8 amended: `call` fails loudly (panics, modelled as `none`) exactly
when the limiter is in `Limited` mode, and in that case nothing is
dispatched to the inner layer; in `Ready` mode it always dispatches, even
without a preceding readiness observation. -/
theorem call_panics_iff_limited (s : RateLimitWithBurst) (now : Nat) :
    (s.state = .Limited → call s now = none) ∧
    (s.state = .Ready → (call s now).isSome = true) := by
  constructor <;> intro h <;> simp only [call, h]
  split <;> rfl

/-- C8 amended witness: the panic at a concrete `Limited` state, and the
silent dispatch at a concrete fresh `Ready` state. -/
theorem call_panics_iff_limited_witness :
    call (⟨⟨1, 100⟩, ⟨2, 400⟩, .Limited, 100, 400, 1, 100⟩ : RateLimitWithBurst) 0 = none ∧
    (call (RateLimitWithBurst.new ⟨1, 100⟩ ⟨2, 400⟩ 0) 0).isSome = true :=
  ⟨(call_panics_iff_limited ⟨⟨1, 100⟩, ⟨2, 400⟩, .Limited, 100, 400, 1, 100⟩ 0).1 rfl,
    (call_panics_iff_limited (RateLimitWithBurst.new ⟨1, 100⟩ ⟨2, 400⟩ 0) 0).2 rfl⟩

/-- C4 counterexample: the stack built by `WrappedClient::new` is not the
composition the spec describes — it has no URL-rewriting layer at all and
the rate limiter is outermost (gating before header injection, not
after); concretely, a relative request target reaches the transport
unrewritten. -/
theorem stack_order_counterexample :
    wrappedClientLayers ≠ claimedStackLayers ∧
    (wrappedClientCall "token" (RateLimitWithBurst.new ⟨2, 1⟩ ⟨30, 60⟩ 0) 0
        ⟨⟨none, none, some "/my/ships"⟩, []⟩).map (fun p => p.2.uri) =
      some ⟨none, none, some "/my/ships"⟩ := by
  constructor
  · decide
  · rfl

/-- C4 amended: the composed client stack wraps, innermost-first, the
transport at the center, then credential/header injection
(`AddAuthorization`), then the rate limiter outermost; no URL-rewriting
layer is part of the composed stack, so a dispatched call is rate-limit
gated, then has the bearer header injected, and reaches the transport
with its target unchanged. -/
theorem stack_order_actual (token : String) (s : RateLimitWithBurst) (now : Nat)
    (req : HttpRequest) (h : s.state = .Ready) :
    wrappedClientLayers = [LayerKind.rateLimit, LayerKind.addAuthorization, LayerKind.transport] ∧
    ∃ s1 req1, wrappedClientCall token s now req = some (s1, req1) ∧
      req1.uri = req.uri ∧
      req1.headers = headerInsert req.headers "authorization" (strConcat "Bearer " token) := by
  refine ⟨rfl, ?_⟩
  have hdisp : ∃ s1, call s now = some s1 := by
    simp only [call, h]
    split <;> exact ⟨_, rfl⟩
  obtain ⟨s1, hs1⟩ := hdisp
  exact ⟨s1, addAuthorizationCall token req, by simp only [wrappedClientCall, hs1], rfl, rfl⟩

/-- C4 amended witness: a concrete call through the fresh composed stack,
with the repository's configured rates 2 per 1s and 30 per 60s. -/
theorem stack_order_actual_witness :
    wrappedClientLayers = [LayerKind.rateLimit, LayerKind.addAuthorization, LayerKind.transport] ∧
    ∃ s1 req1,
      wrappedClientCall "tok" (RateLimitWithBurst.new ⟨2, 1⟩ ⟨30, 60⟩ 0) 0
        ⟨⟨none, none, some "/my/ships"⟩, []⟩ = some (s1, req1) ∧
      req1.uri = (⟨⟨none, none, some "/my/ships"⟩, []⟩ : HttpRequest).uri ∧
      req1.headers = headerInsert (⟨⟨none, none, some "/my/ships"⟩, []⟩ : HttpRequest).headers
        "authorization" (strConcat "Bearer " "tok") :=
  stack_order_actual "tok" (RateLimitWithBurst.new ⟨2, 1⟩ ⟨30, 60⟩ 0) 0
    ⟨⟨none, none, some "/my/ships"⟩, []⟩ rfl

theorem isPrefixOf_append_self (l t : List Char) : l.isPrefixOf (l ++ t) = true := by
  induction l with
  | nil => simp [List.isPrefixOf]
  | cons a l ih => simp [List.isPrefixOf, ih]

theorem strStartsWith_concat (p s : String) : strStartsWith (strConcat p s) p = true := by
  show p.data.isPrefixOf (p.data ++ s.data) = true
  exact isPrefixOf_append_self _ _

/-- C5: when the base URL has a path-and-query and the incoming target
has its own path-and-query, `overwrite_base_url` concatenates the
trailing-slash-stripped base path with the incoming path-and-query when
the latter does not already start with that stripped path, and uses the
incoming path-and-query verbatim when it does; consequently rewriting is
idempotent — rewriting an already-rewritten target changes nothing, so
the base path is never duplicated. -/
theorem overwriteBaseUrl_rewrite (base input : Uri) (bpq ipq : String)
    (hb : base.pathAndQuery = some bpq) (hi : input.pathAndQuery = some ipq) :
    (strStartsWith ipq (trimEndSlashes (pathOf bpq)) = false →
      (overwriteBaseUrl base input).pathAndQuery =
        some (strConcat (trimEndSlashes (pathOf bpq)) ipq)) ∧
    (strStartsWith ipq (trimEndSlashes (pathOf bpq)) = true →
      (overwriteBaseUrl base input).pathAndQuery = some ipq) ∧
    overwriteBaseUrl base (overwriteBaseUrl base input) = overwriteBaseUrl base input := by
  rcases base with ⟨bs, ba, bq⟩
  rcases input with ⟨js, ja, jq⟩
  obtain rfl : bq = some bpq := hb
  obtain rfl : jq = some ipq := hi
  refine ⟨?_, ?_, ?_⟩
  · intro hsw
    simp [overwriteBaseUrl, hsw]
  · intro hsw
    simp [overwriteBaseUrl, hsw]
  · by_cases hsw : strStartsWith ipq (trimEndSlashes (pathOf bpq)) = true
    · cases js <;> cases ja <;> cases bs <;> cases ba <;>
        simp [overwriteBaseUrl, hsw]
    · rw [Bool.not_eq_true] at hsw
      cases js <;> cases ja <;> cases bs <;> cases ba <;>
        simp [overwriteBaseUrl, hsw, strStartsWith_concat]

/-- C5 witness: the spec's example — base `https://host/v2/` with
relative `/my/ships?x=1`, which does not start with the stripped base
path `/v2`, concatenates to `/v2/my/ships?x=1`, and rewriting the result
again changes nothing. -/
theorem overwriteBaseUrl_rewrite_witness :
    (strStartsWith "/my/ships?x=1" (trimEndSlashes (pathOf "/v2/")) = false →
      (overwriteBaseUrl ⟨some "https", some "host", some "/v2/"⟩
          ⟨none, none, some "/my/ships?x=1"⟩).pathAndQuery =
        some (strConcat (trimEndSlashes (pathOf "/v2/")) "/my/ships?x=1")) ∧
    (strStartsWith "/my/ships?x=1" (trimEndSlashes (pathOf "/v2/")) = true →
      (overwriteBaseUrl ⟨some "https", some "host", some "/v2/"⟩
          ⟨none, none, some "/my/ships?x=1"⟩).pathAndQuery = some "/my/ships?x=1") ∧
    overwriteBaseUrl ⟨some "https", some "host", some "/v2/"⟩
        (overwriteBaseUrl ⟨some "https", some "host", some "/v2/"⟩
          ⟨none, none, some "/my/ships?x=1"⟩) =
      overwriteBaseUrl ⟨some "https", some "host", some "/v2/"⟩
        ⟨none, none, some "/my/ships?x=1"⟩ :=
  overwriteBaseUrl_rewrite ⟨some "https", some "host", some "/v2/"⟩
    ⟨none, none, some "/my/ships?x=1"⟩ "/v2/" "/my/ships?x=1" rfl rfl

theorem headerExtend_append (m extra : List (String × String)) :
    headerExtend m extra = m ++ extra := by
  induction extra generalizing m with
  | nil => simp [headerExtend]
  | cons kv extra ih =>
    show headerExtend (headerAppend m kv) extra = m ++ (kv :: extra)
    rw [ih]
    simp [headerAppend]

/-- C6: the header-injection layer appends its configured, ordered list
of header pairs purely additively — the request's existing headers
survive unchanged as a prefix (nothing removed or overwritten), the rest
of the request is untouched, and every entry, duplicates included, occurs
in the result exactly as often as in the original request plus the
configuration. -/
theorem extraHeaders_purely_additive (cfg : List (String × String)) (req : HttpRequest) :
    (extraHeadersCall cfg req).headers = req.headers ++ cfg ∧
    (extraHeadersCall cfg req).uri = req.uri ∧
    ∀ p : String × String,
      (extraHeadersCall cfg req).headers.count p = req.headers.count p + cfg.count p := by
  refine ⟨headerExtend_append req.headers cfg, rfl, fun p => ?_⟩
  simp [extraHeadersCall, headerExtend_append, List.count_append]

/-- C7: when dispatch on the transport is canceled exactly twice and then
succeeds (readiness reporting ok each time), `send_request` retries
against the same handle, performs exactly three dispatch attempts, never
reconnects, and returns the successful response with no error to the
caller. -/
theorem sendRequest_retries_on_cancel (h resp : Nat) :
    sendRequest h [ReadyOutcome.ok, ReadyOutcome.ok, ReadyOutcome.ok]
      [DispatchOutcome.errCanceled, DispatchOutcome.errCanceled, DispatchOutcome.ok resp]
      [] 3 = some (SendResult.success resp, 3, 0, h) := rfl

/-- C10: when the transport is observed closed — on the readiness poll or
on dispatch — and the reconnection attempt itself fails, that connection
error is returned to the caller as the call's terminal error after a
single reconnection attempt, whatever outcomes the scripts would have
offered next. -/
theorem connect_failure_terminal (h e fuel : Nat) (readys : List ReadyOutcome)
    (dispatches : List DispatchOutcome) (connects : List ConnectOutcome) :
    sendRequest h (ReadyOutcome.errClosed :: readys) dispatches
      (ConnectOutcome.err e :: connects) (fuel + 1) =
      some (SendResult.failure e, 0, 1, h) ∧
    sendRequest h (ReadyOutcome.ok :: readys) (DispatchOutcome.errClosed :: dispatches)
      (ConnectOutcome.err e :: connects) (fuel + 1) =
      some (SendResult.failure e, 1, 1, h) :=
  ⟨rfl, rfl⟩

end Catfleet
